import Mathlib

/-!
Verification of the structured-extraction core specified for this repository:
a schema-constrained generation engine that compiles a declared schema into a
backend-consumable constraint, validates returned payloads against the schema,
and retries with corrective feedback under a bounded budget.  The repository's
source is a notebook of example calls into that engine; the engine itself is
modelled from the specification, while schema constants (the House enumeration
and the Literal house values, the Character field lists) are taken from the
notebook source.
-/

namespace Spec2Proof

/-- Modelled from the spec: a raw payload value returned by the Backend
Adapter — an integer, a string, an ordered list, or an object mapping field
names to values.  The engine's `RawOutput` and `Entity` both live in this
type; an `Entity` is a payload the Validator has accepted. -/
inductive Value where
  | vInt (n : Int)
  | vStr (s : String)
  | vList (items : List Value)
  | vObj (fields : List (String × Value))

/-- Modelled from the spec: a field's value kind.  A schema ("a named, ordered
collection of field declarations") is encoded as a chain of `kField`
declarations ending in `kNil`; `kEnum` carries an EnumeratedSet flattened to
its literal allowed values; `kList` carries an optional exact-count cardinality
constraint and a flag marking the list as carrying a monotonically increasing
index. -/
inductive Kind where
  | kInt
  | kStr
  | kEnum (allowed : List String)
  | kList (elem : Kind) (exactCount : Option Nat) (monoIndex : Bool)
  | kNil
  | kField (name : String) (hint : Option String) (k : Kind) (rest : Kind)
deriving DecidableEq

/-- Modelled from the spec: one step of a ValidationError's field path, either
a field name or a list index (rendered as e.g. `properties[2].key`). -/
inductive PathStep where
  | field (name : String)
  | idx (i : Nat)
deriving DecidableEq

/-- A field path is a sequence of path steps from the payload root. -/
abbrev Path := List PathStep

/-- Modelled from the spec: the expected-constraint part of a ValidationError:
missing required field, kind mismatch, value not in the enumerated allowed
set, list cardinality violation, or a list-level ordering violation of a
monotonically increasing index. -/
inductive ErrKind where
  | missing
  | typeMismatch (expected observed : String)
  | notInSet (allowed : List String) (observed : String)
  | cardinality (expected observed : Nat)
  | notMonotone
deriving DecidableEq

/-- Modelled from the spec: a structured ValidationError record with a field
path and the violated constraint. -/
structure VError where
  path : Path
  kind : ErrKind
deriving DecidableEq

/-- True exactly on cardinality errors. -/
def ErrKind.isCardinality : ErrKind → Bool
  | .cardinality _ _ => true
  | _ => false

/-- True exactly on list-level ordering errors. -/
def ErrKind.isNotMonotone : ErrKind → Bool
  | .notMonotone => true
  | _ => false

/-- Short kind name of a payload value, used in mismatch errors. -/
def valueKindName : Value → String
  | .vInt _ => "int"
  | .vStr _ => "str"
  | .vList _ => "list"
  | .vObj _ => "object"

/-- Look a field name up in a raw object payload. -/
def lookupField (n : String) : List (String × Value) → Option Value
  | [] => none
  | (m, v) :: rest => if m = n then some v else lookupField n rest

/-- Numeric value of a decimal digit character, if it is one. -/
def digitVal (c : Char) : Option Nat :=
  if '0' ≤ c ∧ c ≤ '9' then some (c.toNat - '0'.toNat) else none

/-- Parse a non-empty all-digit character list as a natural number. -/
def digitsToNat : List Char → Option Nat
  | [] => none
  | cs => go cs 0
where
  go : List Char → Nat → Option Nat
    | [], acc => some acc
    | c :: rest, acc =>
        match digitVal c with
        | some d => go rest (acc * 10 + d)
        | none => none

/-- Modelled from the spec: extract a list element's monotonically increasing
index — the element's `index` field read as an integer (the source notebook
declares it as a string holding a decimal number). -/
def extractIndex : Value → Option Int
  | .vObj fs =>
      match lookupField "index" fs with
      | some (.vInt n) => some n
      | some (.vStr s) => (digitsToNat s.data).map Int.ofNat
      | _ => none
  | _ => none

/-- True when the list of index values is strictly increasing. -/
def isStrictlyInc : List Int → Bool
  | [] => true
  | [_] => true
  | a :: b :: rest => decide (a < b) && isStrictlyInc (b :: rest)

/-- Check each list item against the element kind, numbering items from `i`. -/
def checkItems (check : Path → Value → List VError) (p : Path) :
    List Value → Nat → List VError
  | [], _ => []
  | v :: rest, i => check (p ++ [.idx i]) v ++ checkItems check p rest (i + 1)

/-- Modelled from the spec: the Validator's structural walk.  It checks a
payload value against a declared kind, collecting every violation rather than
halting at the first: missing required fields, kind mismatches, out-of-set
enumerated values, list cardinality violations (with expected bound and
observed count), a single list-level error for a non-monotone index, and
recursively validated nested entities whose errors carry paths prefixed by the
parent field. -/
def checkKind (p : Path) (k : Kind) (v : Value) : List VError :=
  match k with
  | .kInt =>
      match v with
      | .vInt _ => []
      | _ => [⟨p, .typeMismatch "int" (valueKindName v)⟩]
  | .kStr =>
      match v with
      | .vStr _ => []
      | _ => [⟨p, .typeMismatch "str" (valueKindName v)⟩]
  | .kEnum allowed =>
      match v with
      | .vStr s =>
          if allowed.contains s then [] else [⟨p, .notInSet allowed s⟩]
      | _ => [⟨p, .typeMismatch "enum" (valueKindName v)⟩]
  | .kList elem exactCount monoIndex =>
      match v with
      | .vList items =>
          (match exactCount with
           | some n =>
               if items.length = n then []
               else [⟨p, .cardinality n items.length⟩]
           | none => []) ++
          (if monoIndex && !isStrictlyInc (items.filterMap extractIndex) then
             [⟨p, .notMonotone⟩]
           else []) ++
          checkItems (fun p' v' => checkKind p' elem v') p items 0
      | _ => [⟨p, .typeMismatch "list" (valueKindName v)⟩]
  | .kNil =>
      match v with
      | .vObj _ => []
      | _ => [⟨p, .typeMismatch "object" (valueKindName v)⟩]
  | .kField n _ k rest =>
      match v with
      | .vObj obj =>
          (match lookupField n obj with
           | none => [⟨p ++ [.field n], .missing⟩]
           | some fv => checkKind (p ++ [.field n]) k fv) ++
          checkKind p rest v
      | _ => [⟨p, .typeMismatch "object" (valueKindName v)⟩]

/-- Check one declared field against a raw object payload: a missing required
field yields a `missing` error at the field's path; otherwise the field value
is checked against the declared kind.  This is the per-field step the
`kField` case of `checkKind` performs. -/
def checkField (p : Path) (n : String) (k : Kind) (obj : List (String × Value)) :
    List VError :=
  match lookupField n obj with
  | none => [⟨p ++ [.field n], .missing⟩]
  | some v => checkKind (p ++ [.field n]) k v

/-- Modelled from the spec: a Schema is a named, ordered collection of field
declarations. -/
structure Schema where
  name : String
  fields : Kind

/-- Modelled from the spec: `validate(raw_output, schema) -> Result`: walk the
schema's field declarations against the raw payload; with zero violations the
payload is the validated Entity, otherwise the full violation list is
returned. -/
def validateTop (v : Value) (s : Schema) : Except (List VError) Value :=
  match checkKind [] s.fields v with
  | [] => .ok v
  | e :: rest => .error (e :: rest)

/-- Build an object kind from an ordered list of field declarations. -/
def objOf : List (String × Option String × Kind) → Kind
  | [] => .kNil
  | (n, h, k) :: rest => .kField n h k (objOf rest)

/-- From the source notebook: the `House(Enum)` values — the four lowercase
house strings. -/
def houseEnumValues : List String :=
  ["gryffindor", "hufflepuff", "ravenclaw", "slytherin"]

/-- From the source notebook: the `Literal` house values — the four
capitalized house strings. -/
def houseLiteralValues : List String :=
  ["Gryffindor", "Hufflepuff", "Ravenclaw", "Slytherin"]

/-- From the source notebook: the enum-based `Character` schema
(age, name, house : House). -/
def enumCharacter : Schema :=
  ⟨"Character", objOf
    [("age", none, .kInt),
     ("name", none, .kStr),
     ("house", none, .kEnum houseEnumValues)]⟩

/-- From the source notebook: the Literal-based `Character` schema
(age, name, house : Literal of the four capitalized names). -/
def literalCharacter : Schema :=
  ⟨"Character", objOf
    [("age", none, .kInt),
     ("name", none, .kStr),
     ("house", none, .kEnum houseLiteralValues)]⟩

/-- From the source notebook: the `Property` schema with a monotonically
increasing `index`, a `key` and a `value`. -/
def propertyKind : Kind :=
  objOf
    [("index", some "Monotonically increasing ID", .kStr),
     ("key", none, .kStr),
     ("value", none, .kStr)]

/-- From the source notebook: the `Character` schema whose `properties` list
is declared to hold exactly 5 entries with monotonically increasing indices. -/
def characterWithProperties : Schema :=
  ⟨"Character", objOf
    [("age", none, .kInt),
     ("name", none, .kStr),
     ("house", none, .kEnum houseLiteralValues),
     ("properties", some "Numbered list of arbitrary extracted properties, should be exactly 5",
      .kList propertyKind (some 5) true)]⟩

/-- Modelled from the spec: a role-tagged conversation message. -/
structure Message where
  role : String
  content : String
deriving DecidableEq

/-- Render one path step (`.field` as a dotted name, `.idx` as a bracketed
number, as in `properties[2].key`). -/
def renderStep : PathStep → String
  | .field n => "." ++ n
  | .idx i => "[" ++ toString i ++ "]"

/-- Render a field path for corrective feedback. -/
def renderPath (p : Path) : String :=
  String.join (p.map renderStep)

/-- Render the constraint part of a ValidationError for corrective feedback. -/
def renderErrKind : ErrKind → String
  | .missing => "missing"
  | .typeMismatch expected observed =>
      "expected " ++ expected ++ ", got " ++ observed
  | .notInSet allowed observed =>
      "value " ++ observed ++ " not in allowed set " ++
        String.intercalate ", " allowed
  | .cardinality expected observed =>
      "expected " ++ toString expected ++ " entries, got " ++ toString observed
  | .notMonotone => "index values must be strictly increasing"

/-- Render one ValidationError (field path, expected constraint, observed
value) for corrective feedback. -/
def renderError (e : VError) : String :=
  renderPath e.path ++ ": " ++ renderErrKind e.kind

/-- Modelled from the spec: a short description of the malformed output,
embedded in the corrective message. -/
def summarizeValue : Value → String
  | .vInt n => toString n
  | .vStr s => s
  | .vList items => "a list of " ++ toString items.length ++ " items"
  | .vObj fs =>
      "an object with fields " ++ String.intercalate ", " (fs.map Prod.fst)

/-- Modelled from the spec: the corrective follow-up message the Retry
Orchestrator appends to the conversation context, describing the prior
malformed output and its specific validation errors. -/
def corrective (raw : Value) (errs : List VError) : Message :=
  ⟨"user",
   "The previous response was invalid. It was " ++ summarizeValue raw ++
     ". Errors: " ++ String.intercalate "; " (errs.map renderError)⟩

/-- Modelled from the spec: one Attempt — the message history it was issued
with, the raw response, and its ValidationError list (empty iff successful). -/
structure Attempt where
  messages : List Message
  raw : Value
  errors : List VError

/-- Modelled from the spec: the terminal state of one extraction call —
`Success` with the validated Entity, or `Failed` carrying the last attempt's
ValidationErrors and the attempt count reached. -/
inductive Final where
  | success (entity : Value)
  | failed (errors : List VError) (attempts : Nat)

/-- The observable outcome of one extraction call: the sequence of Attempts
actually issued (one per Backend Adapter call) and the terminal state. -/
structure Outcome where
  trace : List Attempt
  final : Final

/-- Modelled from the spec: the Retry Orchestrator's loop from a given call
number and message history with a remaining attempt budget.  Each iteration
issues one Backend Adapter call, validates the response, and either succeeds,
fails on budget exhaustion surfacing the last attempt's errors and the
attempt count, or appends a corrective message and loops.  The backend is
abstracted as the response it gives to the n-th call of this extraction. -/
def runFrom (s : Schema) (backend : Nat → Value) :
    Nat → Nat → List Message → Outcome
  | 0, callNo, _ => ⟨[], .failed [] callNo⟩
  | fuel + 1, callNo, msgs =>
      let raw := backend callNo
      match validateTop raw s with
      | .ok e => ⟨[⟨msgs, raw, []⟩], .success e⟩
      | .error errs =>
          match fuel with
          | 0 => ⟨[⟨msgs, raw, errs⟩], .failed errs (callNo + 1)⟩
          | fuel' + 1 =>
              let rest := runFrom s backend (fuel' + 1) (callNo + 1)
                (msgs ++ [corrective raw errs])
              ⟨⟨msgs, raw, errs⟩ :: rest.trace, rest.final⟩

/-- Modelled from the spec: run one extraction call — schema, backend,
configured maximum attempt count, and initial conversation context. -/
def orchestrate (s : Schema) (backend : Nat → Value) (maxAttempts : Nat)
    (msgs : List Message) : Outcome :=
  runFrom s backend maxAttempts 0 msgs

/-- Modelled from the spec: a CompiledConstraint — a structural descriptor
(field names, kinds, nesting, enumerated value lists flattened to literals,
cardinality bounds) plus human-readable field hints. -/
structure CompiledConstraint where
  descriptor : String
  hints : List String
deriving DecidableEq

/-- Render the structural descriptor of a kind, flattening enumerated sets to
their literal allowed values. -/
def describeKind : Kind → String
  | .kInt => "int"
  | .kStr => "str"
  | .kEnum allowed => "enum(" ++ String.intercalate "|" allowed ++ ")"
  | .kList elem exactCount monoIndex =>
      "list(" ++ describeKind elem ++ ")" ++
      (match exactCount with
       | some n => "#len=" ++ toString n
       | none => "") ++
      (if monoIndex then "#mono" else "")
  | .kNil => ""
  | .kField n _ k rest => n ++ ":" ++ describeKind k ++ ";" ++ describeKind rest

/-- Collect the human-readable field hints of a kind's declarations, in
declaration order. -/
def collectHints : Kind → List String
  | .kField n (some h) k rest =>
      (n ++ ": " ++ h) :: (collectHints k ++ collectHints rest)
  | .kField _ none k rest => collectHints k ++ collectHints rest
  | .kList elem _ _ => collectHints elem
  | _ => []

/-- Modelled from the spec: `compile(schema) -> CompiledConstraint`, a pure
function of the schema producing the structural descriptor and the field
hints. -/
def compile (s : Schema) : CompiledConstraint :=
  ⟨"obj(" ++ describeKind s.fields ++ ")", collectHints s.fields⟩

/-- Ordered list of the field declarations of an object kind. -/
def fieldsOf : Kind → List (String × Kind)
  | .kField n _ k rest => (n, k) :: fieldsOf rest
  | _ => []

/-- True when a kind is a well-formed object kind: a chain of field
declarations ending in the empty declaration list. -/
def isObjKind : Kind → Bool
  | .kNil => true
  | .kField _ _ _ rest => isObjKind rest
  | _ => false

/-- A fully valid payload for the Literal-based Character schema. -/
def goodCharacterPayload : Value :=
  .vObj [("age", .vInt 17), ("name", .vStr "Harry Potter"),
    ("house", .vStr "Gryffindor")]

/-- A backend returning schema-invalid payloads on the first two calls and a
fully valid payload from the third call on. -/
def flakyBackend : Nat → Value := fun n =>
  match n with
  | 0 => .vObj []
  | 1 => .vObj [("age", .vInt 17)]
  | _ => goodCharacterPayload

/-- A backend whose every response violates the schema. -/
def alwaysBadBackend : Nat → Value := fun _ =>
  .vObj [("age", .vStr "seventeen")]

/-- The initial conversation context of the example extraction call. -/
def initialMsgs : List Message := [⟨"user", "Harry Potter"⟩]

/-- The validation errors of `flakyBackend`'s first response. -/
def errsAttempt1 : List VError :=
  [⟨[.field "age"], .missing⟩, ⟨[.field "name"], .missing⟩,
   ⟨[.field "house"], .missing⟩]

/-- The validation errors of `flakyBackend`'s second response. -/
def errsAttempt2 : List VError :=
  [⟨[.field "name"], .missing⟩, ⟨[.field "house"], .missing⟩]

/-- The validation errors of every `alwaysBadBackend` response. -/
def errsBad : List VError :=
  [⟨[.field "age"], .typeMismatch "int" "str"⟩, ⟨[.field "name"], .missing⟩,
   ⟨[.field "house"], .missing⟩]

/-- A raw property entry of the source notebook's shape. -/
def sampleProp (i : Nat) (k v : String) : Value :=
  .vObj [("index", .vStr (toString i)), ("key", .vStr k), ("value", .vStr v)]

/-- Three property entries where the schema demands exactly 5. -/
def threeProps : List Value :=
  [sampleProp 1 "position" "Professor of Potions",
   sampleProp 2 "patronus" "Doe",
   sampleProp 3 "skill" "Occlumency"]

/-- Two property entries whose index values are out of order. -/
def outOfOrderProps : List Value :=
  [sampleProp 2 "patronus" "Doe", sampleProp 1 "position" "Professor of Potions"]

theorem checkItems_path_lt
    (check : Path → Value → List VError)
    (hcheck : ∀ p v, ∀ e ∈ check p v, p.length ≤ e.path.length) :
    ∀ (items : List Value) (i : Nat) (p : Path), ∀ e ∈ checkItems check p items i,
      p.length < e.path.length := by
  intro items
  induction items with
  | nil => intro i p e he; simp [checkItems] at he
  | cons v rest ih =>
      intro i p e he
      simp only [checkItems, List.mem_append] at he
      rcases he with he | he
      · have h2 := hcheck (p ++ [.idx i]) v e he
        have h1 : p.length < (p ++ [PathStep.idx i]).length := by simp
        exact Nat.lt_of_lt_of_le h1 h2
      · exact ih (i + 1) p e he

theorem checkKind_path_le (k : Kind) :
    ∀ (p : Path) (v : Value), ∀ e ∈ checkKind p k v, p.length ≤ e.path.length := by
  induction k with
  | kInt =>
      intro p v e he
      cases v <;> simp [checkKind] at he <;> simp [he]
  | kStr =>
      intro p v e he
      cases v <;> simp [checkKind] at he <;> simp [he]
  | kEnum allowed =>
      intro p v e he
      cases v with
      | vStr s =>
          simp [checkKind] at he
          simp [he.2]
      | vInt m => simp [checkKind] at he; simp [he]
      | vList l => simp [checkKind] at he; simp [he]
      | vObj fs => simp [checkKind] at he; simp [he]
  | kNil =>
      intro p v e he
      cases v <;> simp [checkKind] at he <;> simp [he]
  | kList elem exactCount monoIndex ihElem =>
      intro p v e he
      cases v with
      | vList items =>
          simp only [checkKind, List.mem_append] at he
          rcases he with (he | he) | he
          · rcases exactCount with _ | n
            · simp at he
            · by_cases hl : items.length = n <;> simp [hl] at he
              simp [he]
          · by_cases hm : monoIndex && !isStrictlyInc (items.filterMap extractIndex) <;>
              simp [hm] at he
            simp [he]
          · exact Nat.le_of_lt
              (checkItems_path_lt _ (fun p' v' => ihElem p' v') items 0 p e he)
      | vInt n => simp [checkKind] at he; simp [he]
      | vStr s => simp [checkKind] at he; simp [he]
      | vObj fs => simp [checkKind] at he; simp [he]
  | kField n hint k rest ihk ihrest =>
      intro p v e he
      cases v with
      | vObj obj =>
          simp only [checkKind, List.mem_append] at he
          rcases he with he | he
          · cases hl : lookupField n obj with
            | none =>
                rw [hl] at he; simp at he; simp [he]
            | some fv =>
                rw [hl] at he
                have h2 := ihk (p ++ [.field n]) fv e he
                have h1 : p.length ≤ (p ++ [PathStep.field n]).length := by simp
                exact Nat.le_trans h1 h2
          · exact ihrest p (.vObj obj) e he
      | vInt m => simp [checkKind] at he; simp [he]
      | vStr s => simp [checkKind] at he; simp [he]
      | vList items => simp [checkKind] at he; simp [he]

theorem checkItems_mem (check : Path → Value → List VError) (p : Path) :
    ∀ (items : List Value) (i0 j : Nat) (hj : j < items.length) (e : VError),
      e ∈ check (p ++ [.idx (i0 + j)]) (items.get ⟨j, hj⟩) →
      e ∈ checkItems check p items i0 := by
  intro items
  induction items with
  | nil => intro i0 j hj e he; simp at hj
  | cons v rest ih =>
      intro i0 j hj e he
      simp only [checkItems, List.mem_append]
      cases j with
      | zero => left; simpa using he
      | succ j' =>
          right
          have hj' : j' < rest.length := by simpa using hj
          have : i0 + 1 + j' = i0 + (j' + 1) := by omega
          refine ih (i0 + 1) j' hj' e ?_
          rw [this]
          simpa using he

theorem checkField_subset_checkKind (p : Path) (obj : List (String × Value)) :
    ∀ (fs : Kind) (n : String) (k : Kind), (n, k) ∈ fieldsOf fs →
      ∀ e ∈ checkField p n k obj, e ∈ checkKind p fs (.vObj obj) := by
  intro fs
  induction fs with
  | kField n' hint k' rest ihk ihrest =>
      intro n k hdecl e he
      simp only [fieldsOf, List.mem_cons] at hdecl
      have hunfold : checkKind p (.kField n' hint k' rest) (.vObj obj) =
          checkField p n' k' obj ++ checkKind p rest (.vObj obj) := by
        simp only [checkKind, checkField]
      rw [hunfold, List.mem_append]
      rcases hdecl with heq | hdecl
      · left
        injection heq with h1 h2
        subst h1; subst h2
        exact he
      · right
        exact ihrest n k hdecl e he
  | kInt => intro n k hdecl e he; simp [fieldsOf] at hdecl
  | kStr => intro n k hdecl e he; simp [fieldsOf] at hdecl
  | kEnum a => intro n k hdecl e he; simp [fieldsOf] at hdecl
  | kNil => intro n k hdecl e he; simp [fieldsOf] at hdecl
  | kList a b c ih => intro n k hdecl e he; simp [fieldsOf] at hdecl

theorem validateTop_error_ne_nil {v : Value} {s : Schema} {errs : List VError}
    (h : validateTop v s = .error errs) : errs ≠ [] := by
  unfold validateTop at h
  cases hc : checkKind [] s.fields v with
  | nil => rw [hc] at h; simp at h
  | cons a rest =>
      rw [hc] at h
      simp only [Except.error.injEq] at h
      subst h
      simp

theorem checkKind_obj_of_all_valid (p : Path) (obj : List (String × Value)) :
    ∀ fs : Kind, isObjKind fs = true →
      (∀ n k, (n, k) ∈ fieldsOf fs → checkField p n k obj = []) →
      checkKind p fs (.vObj obj) = [] := by
  intro fs
  induction fs with
  | kNil => intro _ _; simp [checkKind]
  | kField n' hint k' rest ihk ihrest =>
      intro hobj hall
      have hhead : checkField p n' k' obj = [] :=
        hall n' k' (by simp [fieldsOf])
      have hrest : checkKind p rest (.vObj obj) = [] := by
        refine ihrest (by simpa [isObjKind] using hobj) ?_
        intro n k hmem
        exact hall n k (by simp [fieldsOf, hmem])
      have hunfold : checkKind p (.kField n' hint k' rest) (.vObj obj) =
          checkField p n' k' obj ++ checkKind p rest (.vObj obj) := by
        simp only [checkKind, checkField]
      rw [hunfold, hhead, hrest]
      rfl
  | kInt => intro hobj _; simp [isObjKind] at hobj
  | kStr => intro hobj _; simp [isObjKind] at hobj
  | kEnum a => intro hobj _; simp [isObjKind] at hobj
  | kList a b c ih => intro hobj _; simp [isObjKind] at hobj

theorem checkKind_obj_missing_single (p : Path) (obj : List (String × Value)) (f : String) :
    ∀ fs : Kind, isObjKind fs = true →
      ((fieldsOf fs).map Prod.fst).count f = 1 →
      lookupField f obj = none →
      (∀ n k, (n, k) ∈ fieldsOf fs → n ≠ f → checkField p n k obj = []) →
      checkKind p fs (.vObj obj) = [⟨p ++ [.field f], .missing⟩] := by
  intro fs
  induction fs with
  | kNil => intro _ hcount _ _; simp [fieldsOf] at hcount
  | kField n' hint k' rest ihk ihrest =>
      intro hobj hcount hmiss hothers
      have hobj' : isObjKind rest = true := by simpa [isObjKind] using hobj
      have hunfold : checkKind p (.kField n' hint k' rest) (.vObj obj) =
          checkField p n' k' obj ++ checkKind p rest (.vObj obj) := by
        simp only [checkKind, checkField]
      rw [hunfold]
      by_cases hn : n' = f
      · subst hn
        have hhead : checkField p n' k' obj = [⟨p ++ [.field n'], .missing⟩] := by
          simp [checkField, hmiss]
        have hcount' : ((fieldsOf rest).map Prod.fst).count n' = 0 := by
          simp [fieldsOf, List.count_cons] at hcount
          omega
        have hrest : checkKind p rest (.vObj obj) = [] := by
          refine checkKind_obj_of_all_valid p obj rest hobj' ?_
          intro n k hmem
          refine hothers n k (by simp [fieldsOf, hmem]) ?_
          intro hnf
          subst hnf
          have : 0 < ((fieldsOf rest).map Prod.fst).count n := by
            refine List.count_pos_iff.mpr ?_
            exact List.mem_map.mpr ⟨(n, k), hmem, rfl⟩
          omega
        rw [hhead, hrest]
        rfl
      · have hhead : checkField p n' k' obj = [] :=
          hothers n' k' (by simp [fieldsOf]) hn
        have hcount' : ((fieldsOf rest).map Prod.fst).count f = 1 := by
          simpa [fieldsOf, List.count_cons, hn] using hcount
        have hrest := ihrest hobj' hcount' hmiss
          (fun n k hmem hnf => hothers n k (by simp [fieldsOf, hmem]) hnf)
        rw [hhead, hrest]
        rfl
  | kInt => intro hobj _ _ _; simp [isObjKind] at hobj
  | kStr => intro hobj _ _ _; simp [isObjKind] at hobj
  | kEnum a => intro hobj _ _ _; simp [isObjKind] at hobj
  | kList a b c ih => intro hobj _ _ _; simp [isObjKind] at hobj

/-- C3: for a list field declared with an exact count of 5 and a payload
supplying 3 entries, the Validator reports exactly one cardinality error for
that field, citing expected count 5 and observed count 3. -/
theorem claim_c3_exact_count_cardinality (p : Path) (elem : Kind) (monoIndex : Bool)
    (items : List Value) (h : items.length = 3) :
    (checkKind p (.kList elem (some 5) monoIndex) (.vList items)).filter
      (fun er => decide (er.path = p) && er.kind.isCardinality) =
      [⟨p, .cardinality 5 3⟩] := by
  have hne : items.length ≠ 5 := by omega
  have hunfold : checkKind p (.kList elem (some 5) monoIndex) (.vList items) =
      ([⟨p, .cardinality 5 items.length⟩] ++
        (if monoIndex && !isStrictlyInc (items.filterMap extractIndex) then
          [⟨p, .notMonotone⟩] else [])) ++
      checkItems (fun p' v' => checkKind p' elem v') p items 0 := by
    simp [checkKind, hne]
  rw [hunfold]
  rw [List.filter_append, List.filter_append]
  have h1 : ([(⟨p, .cardinality 5 items.length⟩ : VError)]).filter
      (fun er => decide (er.path = p) && er.kind.isCardinality) =
      [⟨p, .cardinality 5 3⟩] := by
    simp [List.filter, ErrKind.isCardinality, h]
  have h2 : (if monoIndex && !isStrictlyInc (items.filterMap extractIndex) then
        [(⟨p, .notMonotone⟩ : VError)] else []).filter
      (fun er => decide (er.path = p) && er.kind.isCardinality) = [] := by
    split <;> simp [List.filter, ErrKind.isCardinality]
  have h3 : (checkItems (fun p' v' => checkKind p' elem v') p items 0).filter
      (fun er => decide (er.path = p) && er.kind.isCardinality) = [] := by
    rw [List.filter_eq_nil_iff]
    intro e he
    have hlt := checkItems_path_lt _ (fun p' v' => checkKind_path_le elem p' v')
      items 0 p e he
    have hne' : e.path ≠ p := by
      intro hp
      rw [hp] at hlt
      omega
    simp [hne']
  rw [h1, h2, h3]
  rfl

/-- C4: for a list field declared as a monotonically increasing index and a
payload whose index values are not strictly increasing, the Validator
reports exactly one list-level ordering error for that field, and still
checks each entry individually (every entry-level error is collected). -/
theorem claim_c4_monotone_index_single_error (p : Path) (elem : Kind)
    (exactCount : Option Nat) (items : List Value)
    (h : isStrictlyInc (items.filterMap extractIndex) = false) :
    ((checkKind p (.kList elem exactCount true) (.vList items)).filter
        (fun er => decide (er.path = p) && er.kind.isNotMonotone) =
      [⟨p, .notMonotone⟩]) ∧
    ∀ (i : Nat) (hi : i < items.length),
      ∀ e ∈ checkKind (p ++ [.idx i]) elem (items.get ⟨i, hi⟩),
        e ∈ checkKind p (.kList elem exactCount true) (.vList items) := by
  have h3 : (checkItems (fun p' v' => checkKind p' elem v') p items 0).filter
      (fun er => decide (er.path = p) && er.kind.isNotMonotone) = [] := by
    rw [List.filter_eq_nil_iff]
    intro e he
    have hlt := checkItems_path_lt _ (fun p' v' => checkKind_path_le elem p' v')
      items 0 p e he
    have hne' : e.path ≠ p := by
      intro hp
      rw [hp] at hlt
      omega
    simp [hne']
  have hmem : ∀ (i : Nat) (hi : i < items.length),
      ∀ e ∈ checkKind (p ++ [.idx i]) elem (items.get ⟨i, hi⟩),
        e ∈ checkItems (fun p' v' => checkKind p' elem v') p items 0 := by
    intro i hi e he
    refine checkItems_mem (fun p' v' => checkKind p' elem v') p items 0 i hi e ?_
    simpa using he
  rcases exactCount with _ | n
  · have hunfold : checkKind p (.kList elem none true) (.vList items) =
        [(⟨p, .notMonotone⟩ : VError)] ++
        checkItems (fun p' v' => checkKind p' elem v') p items 0 := by
      simp [checkKind, h]
    rw [hunfold]
    constructor
    · rw [List.filter_append, h3]
      simp [List.filter, ErrKind.isNotMonotone]
    · intro i hi e he
      rw [List.mem_append]
      exact Or.inr (hmem i hi e he)
  · by_cases hl : items.length = n
    · have hunfold : checkKind p (.kList elem (some n) true) (.vList items) =
          [(⟨p, .notMonotone⟩ : VError)] ++
          checkItems (fun p' v' => checkKind p' elem v') p items 0 := by
        simp [checkKind, h, hl]
      rw [hunfold]
      constructor
      · rw [List.filter_append, h3]
        simp [List.filter, ErrKind.isNotMonotone]
      · intro i hi e he
        rw [List.mem_append]
        exact Or.inr (hmem i hi e he)
    · have hunfold : checkKind p (.kList elem (some n) true) (.vList items) =
          ([(⟨p, .cardinality n items.length⟩ : VError)] ++
            [(⟨p, .notMonotone⟩ : VError)]) ++
          checkItems (fun p' v' => checkKind p' elem v') p items 0 := by
        simp [checkKind, h, hl]
      rw [hunfold]
      constructor
      · rw [List.filter_append, List.filter_append, h3]
        simp [List.filter, ErrKind.isNotMonotone]
      · intro i hi e he
        rw [List.mem_append]
        exact Or.inr (hmem i hi e he)

/-- C5: for the enumerated house field with allowed values Gryffindor,
Hufflepuff, Ravenclaw, Slytherin and observed value Beauxbatons, the
Validator reports exactly one value-not-in-set error listing all four
allowed values. -/
theorem claim_c5_enum_not_in_set (p : Path) :
    checkKind p (.kEnum houseLiteralValues) (.vStr "Beauxbatons") =
      [⟨p, .notInSet houseLiteralValues "Beauxbatons"⟩] ∧
    houseLiteralValues = ["Gryffindor", "Hufflepuff", "Ravenclaw", "Slytherin"] ∧
    ("house", Kind.kEnum houseLiteralValues) ∈ fieldsOf literalCharacter.fields := by
  refine ⟨rfl, rfl, by decide⟩

/-- C10: the enum-based Character schema's house field is closed over
exactly the four lowercase literal values: a house string validates iff it
is one of them, so the capitalized Gryffindor is rejected by the enum-based
schema while the Literal-based variant accepts exactly the capitalized
forms. -/
theorem claim_c10_enum_house_membership :
    (fieldsOf enumCharacter.fields =
      [("age", .kInt), ("name", .kStr), ("house", .kEnum houseEnumValues)]) ∧
    (houseEnumValues = ["gryffindor", "hufflepuff", "ravenclaw", "slytherin"]) ∧
    (∀ (p : Path) (s : String),
      checkKind p (.kEnum houseEnumValues) (.vStr s) = [] ↔ s ∈ houseEnumValues) ∧
    (∀ p : Path, checkKind p (.kEnum houseEnumValues) (.vStr "Gryffindor") ≠ []) ∧
    (∀ (p : Path) (s : String),
      checkKind p (.kEnum houseLiteralValues) (.vStr s) = [] ↔ s ∈ houseLiteralValues) ∧
    (∀ p : Path, checkKind p (.kEnum houseLiteralValues) (.vStr "Gryffindor") = []) := by
  refine ⟨by decide, rfl, ?_, ?_, ?_, ?_⟩
  · intro p s
    by_cases hc : houseEnumValues.contains s <;> simp [checkKind, hc]
  · intro p
    simp [checkKind]
    decide
  · intro p s
    by_cases hc : houseLiteralValues.contains s <;> simp [checkKind, hc]
  · intro p
    rfl

/-- C6: the Validator walks all of the schema's field declarations and
collects every violation, not only the first: any error produced by any
declared field's check appears in the error list `validate` returns. -/
theorem claim_c6_all_violations_collected (s : Schema) (obj : List (String × Value))
    (n : String) (k : Kind) (e : VError)
    (hdecl : (n, k) ∈ fieldsOf s.fields)
    (he : e ∈ checkField [] n k obj) :
    ∃ errs, validateTop (.vObj obj) s = .error errs ∧ e ∈ errs := by
  have hmem : e ∈ checkKind [] s.fields (.vObj obj) :=
    checkField_subset_checkKind [] obj s.fields n k hdecl e he
  cases hc : checkKind [] s.fields (.vObj obj) with
  | nil => rw [hc] at hmem; simp at hmem
  | cons a rest =>
      refine ⟨a :: rest, ?_, hc ▸ hmem⟩
      unfold validateTop
      rw [hc]

/-- C7: for a schema with a required field `f` and a payload omitting `f`
but supplying valid values for every other field, `validate` reports
exactly one missing-field error whose path names `f`, and no errors for the
other fields. -/
theorem claim_c7_missing_field_single_error (s : Schema) (obj : List (String × Value))
    (f : String)
    (hobj : isObjKind s.fields = true)
    (hcount : ((fieldsOf s.fields).map Prod.fst).count f = 1)
    (hmiss : lookupField f obj = none)
    (hothers : ∀ n k, (n, k) ∈ fieldsOf s.fields → n ≠ f → checkField [] n k obj = []) :
    validateTop (.vObj obj) s = .error [⟨[.field f], .missing⟩] := by
  have hcheck := checkKind_obj_missing_single [] obj f s.fields hobj hcount hmiss hothers
  unfold validateTop
  rw [hcheck]
  rfl

/-- C8: validation is idempotent on already-valid data: an Entity accepted
by `validate` against a schema is accepted again, unchanged, on
re-validation. -/
theorem claim_c8_validation_idempotent (s : Schema) (v e : Value)
    (h : validateTop v s = .ok e) :
    e = v ∧ validateTop e s = .ok e := by
  unfold validateTop at h ⊢
  cases hc : checkKind [] s.fields v with
  | nil =>
      rw [hc] at h
      simp only [Except.ok.injEq] at h
      subst h
      rw [hc]
      exact ⟨rfl, rfl⟩
  | cons a rest =>
      rw [hc] at h
      simp at h

/-- C9: `compile` is deterministic: two compilations of the same schema
yield identical CompiledConstraint values, depending on nothing but the
schema. -/
theorem claim_c9_compile_deterministic (s₁ s₂ : Schema) (h : s₁ = s₂) :
    compile s₁ = compile s₂ := by
  rw [h]

/-- C1: with `max_attempts = 3`, a backend whose payloads are schema-invalid
on attempts 1 and 2 and fully valid on attempt 3 drives the Retry
Orchestrator to `Success` on the third attempt; the returned Entity equals
the parsed third payload, exactly 3 Backend Adapter calls are issued, and
each successive call's message history strictly grows by the corrective
message describing the prior attempt's validation errors. -/
theorem claim_c1_success_on_third_attempt (s : Schema) (backend : Nat → Value)
    (msgs : List Message) (e : Value) (errs0 errs1 : List VError)
    (h0 : validateTop (backend 0) s = .error errs0)
    (h1 : validateTop (backend 1) s = .error errs1)
    (h2 : validateTop (backend 2) s = .ok e) :
    (orchestrate s backend 3 msgs).final = .success e ∧
    (orchestrate s backend 3 msgs).trace.length = 3 ∧
    List.Chain' (fun a b => b.messages = a.messages ++ [corrective a.raw a.errors] ∧
      a.messages.length < b.messages.length) (orchestrate s backend 3 msgs).trace := by
  have hout : orchestrate s backend 3 msgs =
      ⟨[⟨msgs, backend 0, errs0⟩,
        ⟨msgs ++ [corrective (backend 0) errs0], backend 1, errs1⟩,
        ⟨(msgs ++ [corrective (backend 0) errs0]) ++ [corrective (backend 1) errs1],
          backend 2, []⟩],
       .success e⟩ := by
    simp [orchestrate, runFrom, h0, h1, h2]
  rw [hout]
  refine ⟨rfl, rfl, ?_⟩
  simp [List.chain'_cons]

/-- C2: with `max_attempts = 2` and every attempt's payload failing
validation, the Orchestrator terminates in `Failed` after exactly 2
attempts, carrying the last attempt's non-empty ValidationError list and
the attempt count reached. -/
theorem claim_c2_failed_after_budget (s : Schema) (backend : Nat → Value)
    (msgs : List Message) (errs0 errs1 : List VError)
    (h0 : validateTop (backend 0) s = .error errs0)
    (h1 : validateTop (backend 1) s = .error errs1) :
    (orchestrate s backend 2 msgs).final = .failed errs1 2 ∧
    (orchestrate s backend 2 msgs).trace.length = 2 ∧ errs1 ≠ [] := by
  refine ⟨?_, ?_, validateTop_error_ne_nil h1⟩
  · simp [orchestrate, runFrom, h0, h1]
  · simp [orchestrate, runFrom, h0, h1]

/-- Witness for C1 at a concrete schema, backend and conversation. -/
theorem claim_c1_witness :
    (orchestrate literalCharacter flakyBackend 3 initialMsgs).final =
      .success goodCharacterPayload ∧
    (orchestrate literalCharacter flakyBackend 3 initialMsgs).trace.length = 3 ∧
    List.Chain' (fun a b => b.messages = a.messages ++ [corrective a.raw a.errors] ∧
      a.messages.length < b.messages.length)
      (orchestrate literalCharacter flakyBackend 3 initialMsgs).trace :=
  claim_c1_success_on_third_attempt literalCharacter flakyBackend initialMsgs
    goodCharacterPayload errsAttempt1 errsAttempt2 rfl rfl rfl

/-- Witness for C2 at a concrete schema, backend and conversation. -/
theorem claim_c2_witness :
    (orchestrate literalCharacter alwaysBadBackend 2 initialMsgs).final =
      .failed errsBad 2 ∧
    (orchestrate literalCharacter alwaysBadBackend 2 initialMsgs).trace.length = 2 ∧
    errsBad ≠ [] :=
  claim_c2_failed_after_budget literalCharacter alwaysBadBackend initialMsgs
    errsBad errsBad rfl rfl

/-- Witness for C3 at the notebook's `properties` field with 3 entries. -/
theorem claim_c3_witness :
    threeProps.length = 3 ∧
    (checkKind [.field "properties"] (.kList propertyKind (some 5) true)
        (.vList threeProps)).filter
      (fun er => decide (er.path = [.field "properties"]) && er.kind.isCardinality) =
      [⟨[.field "properties"], .cardinality 5 3⟩] :=
  ⟨rfl, claim_c3_exact_count_cardinality [.field "properties"] propertyKind true
    threeProps rfl⟩

/-- Witness for C4 at the notebook's `properties` field with out-of-order
index values. -/
theorem claim_c4_witness :
    isStrictlyInc (outOfOrderProps.filterMap extractIndex) = false ∧
    (((checkKind [.field "properties"] (.kList propertyKind (some 5) true)
          (.vList outOfOrderProps)).filter
        (fun er => decide (er.path = [.field "properties"]) && er.kind.isNotMonotone) =
      [⟨[.field "properties"], .notMonotone⟩]) ∧
    ∀ (i : Nat) (hi : i < outOfOrderProps.length),
      ∀ e ∈ checkKind ([.field "properties"] ++ [.idx i]) propertyKind
          (outOfOrderProps.get ⟨i, hi⟩),
        e ∈ checkKind [.field "properties"] (.kList propertyKind (some 5) true)
          (.vList outOfOrderProps)) :=
  ⟨rfl, claim_c4_monotone_index_single_error [.field "properties"] propertyKind
    (some 5) outOfOrderProps rfl⟩

/-- Witness for C6: a payload violating several fields at once still
surfaces the `age` type mismatch. -/
theorem claim_c6_witness :
    ∃ errs, validateTop (.vObj [("age", .vStr "seventeen")]) literalCharacter =
      .error errs ∧ (⟨[.field "age"], .typeMismatch "int" "str"⟩ : VError) ∈ errs :=
  claim_c6_all_violations_collected literalCharacter [("age", .vStr "seventeen")]
    "age" .kInt ⟨[.field "age"], .typeMismatch "int" "str"⟩ (by decide) (by decide)

/-- Witness for C7: the Literal Character schema with `house` omitted. -/
theorem claim_c7_witness :
    validateTop (.vObj [("age", .vInt 17), ("name", .vStr "Harry Potter")])
      literalCharacter = .error [⟨[.field "house"], .missing⟩] :=
  claim_c7_missing_field_single_error literalCharacter
    [("age", .vInt 17), ("name", .vStr "Harry Potter")] "house" rfl (by decide) rfl
    (by
      intro n k hmem hne
      simp [literalCharacter, objOf, fieldsOf] at hmem
      rcases hmem with ⟨hn, hk⟩ | ⟨hn, hk⟩ | ⟨hn, hk⟩ <;> subst hn <;> subst hk
      · rfl
      · rfl
      · exact absurd rfl hne)

/-- Witness for C8 at a concrete valid payload. -/
theorem claim_c8_witness :
    goodCharacterPayload = goodCharacterPayload ∧
    validateTop goodCharacterPayload literalCharacter = .ok goodCharacterPayload :=
  claim_c8_validation_idempotent literalCharacter goodCharacterPayload
    goodCharacterPayload rfl

/-- Witness for C9 at the Literal Character schema. -/
theorem claim_c9_witness :
    literalCharacter = literalCharacter ∧
    compile literalCharacter = compile literalCharacter :=
  ⟨rfl, claim_c9_compile_deterministic literalCharacter literalCharacter rfl⟩

end Spec2Proof
